import Mathlib

/-!
Verification development for the `near-contract` repository.

The repository wires a NEAR smart contract out of three parts:

* `src/lib.rs` — a small "guess the hashed password" contract
  (`Contract::new`, `get_solution`, `set_solution`, `guess_solution`);
* `src/cmn/ft.rs` — a fungible-token wrapper: `FungibleToken::new` plus the
  `impl_fungible_token_contract!` glue that forwards `ft_transfer`,
  `ft_transfer_call`, `ft_resolve_transfer` (marked `#[private]`) and the
  storage-management entry points to `near_contract_standards`;
* `src/cmn/nft.rs` — the analogous non-fungible wrapper forwarding
  `nft_mint`, `nft_transfer`, `nft_transfer_call`, `nft_resolve_transfer`
  (marked `#[private]`), and the approval entry points.

The ledger algorithms themselves (balance bookkeeping, the two-phase
transfer-and-notify settlement, approval management) live in the external
`near_contract_standards` crate, which is not part of the repository
sources; only their callers are.  Definitions for those parts are therefore
modelled from the repository's specification (marked `Modelled from the
spec:` below).  The `Contract` in `src/lib.rs` is embedded directly from
the source.

Machine integers (`u128`, `u64`) are embedded as `Nat`; no operation in the
modelled fragment relies on wrap-around, and the upstream code uses checked
arithmetic that aborts on overflow, which the error monad reflects.
Account ids and token ids are strings.  Persistent maps are embedded as
association lists with explicit lookup / set / remove primitives.
-/

/-! ## Association-list primitives

The NEAR collections (`LookupMap`, `UnorderedMap`, `TreeMap`) used by the
ledgers are key-value stores; we embed them as association lists.  `aset`
replaces the value at the first occurrence of the key, appending a fresh
entry when the key is absent; `alookup` reads the first occurrence;
`aremove` deletes the first occurrence. -/

def alookup {α β : Type} [DecidableEq α] : List (α × β) → α → Option β
  | [], _ => none
  | (b, w) :: t, a => if b = a then some w else alookup t a

def aset {α β : Type} [DecidableEq α] : List (α × β) → α → β → List (α × β)
  | [], a, v => [(a, v)]
  | (b, w) :: t, a, v => if b = a then (a, v) :: t else (b, w) :: aset t a v

def aremove {α β : Type} [DecidableEq α] : List (α × β) → α → List (α × β)
  | [], _ => []
  | (b, w) :: t, a => if b = a then t else (b, w) :: aremove t a

/-- Sum of all values stored in an association list. -/
def sumv {α : Type} (l : List (α × Nat)) : Nat := (l.map Prod.snd).sum

/-- Remove the first occurrence of an element from a list. -/
def removeFirst {α : Type} [DecidableEq α] : List α → α → List α
  | [], _ => []
  | x :: t, a => if x = a then t else x :: removeFirst t a

/-! ## Fungible-token ledger

Modelled from the spec: the `FungibleLedger` component (§4.3 of the spec),
whose implementation is supplied by `near_contract_standards` and called
through `src/cmn/ft.rs`.  Balances are a map from account id to unsigned
amount; `totalSupply` is the circulating supply. -/

abbrev AccountId := String

abbrev TokenId := String

/-- Error taxonomy of the spec (§7), covering both ledgers. -/
inductive Err where
  | SelfTransfer
  | ZeroAmount
  | ReceiverNotRegistered
  | InsufficientBalance
  | NotRegistered
  | AlreadyRegistered
  | StillHoldingAssets
  | AuthorizationError
  | PendingNotFound
  | TokenNotFound
  | TokenAlreadyExists
  | NotOwnerOrApproved
  | NotOwner
deriving DecidableEq, Repr

/-- Fungible ledger state: account balances plus the circulating supply. -/
structure FT where
  accounts : List (AccountId × Nat)
  totalSupply : Nat
deriving DecidableEq, Repr

/-- Modelled from the spec: `FungibleToken::new` (src/cmn/ft.rs lines
156-174) registers the owner account and deposits the whole initial supply
into it; the internal bookkeeping of `Token::new` /
`internal_register_account` / `internal_deposit` is upstream code. -/
def FT.new (owner : AccountId) (supply : Nat) : FT :=
  { accounts := [(owner, supply)], totalSupply := supply }

/-- Modelled from the spec: internal-only `withdraw`, which fails with
`InsufficientBalance` if `amount > balance` (spec §4.3); an unregistered
account cannot be withdrawn from. -/
def FT.withdraw (ft : FT) (a : AccountId) (amount : Nat) : Except Err FT :=
  match alookup ft.accounts a with
  | none => .error .NotRegistered
  | some bal =>
    if amount ≤ bal then
      .ok { ft with accounts := aset ft.accounts a (bal - amount) }
    else
      .error .InsufficientBalance

/-- Modelled from the spec: internal-only `deposit` to a registered
account (spec §4.3). -/
def FT.deposit (ft : FT) (a : AccountId) (amount : Nat) : Except Err FT :=
  match alookup ft.accounts a with
  | none => .error .ReceiverNotRegistered
  | some bal => .ok { ft with accounts := aset ft.accounts a (bal + amount) }

/-- Modelled from the spec: `transfer(sender, receiver, amount, memo)`
"fails with `SelfTransfer` if sender==receiver, `ZeroAmount` if amount==0,
`ReceiverNotRegistered` if receiver absent; otherwise atomically withdraws
then deposits" (spec §4.3).  The memo only feeds logging and is omitted.
Called through `ft_transfer` in src/cmn/ft.rs lines 181-189. -/
def FT.transfer (ft : FT) (sender receiver : AccountId) (amount : Nat) : Except Err FT :=
  if sender = receiver then .error .SelfTransfer
  else if amount = 0 then .error .ZeroAmount
  else if (alookup ft.accounts receiver).isNone then .error .ReceiverNotRegistered
  else (ft.withdraw sender amount).bind (fun ft1 => ft1.deposit receiver amount)

/-- Transient record of an in-flight transfer-and-notify call (spec §3,
`PendingTransfer`). -/
structure Pending where
  sender : AccountId
  receiver : AccountId
  amount : Nat
deriving DecidableEq, Repr

/-- Outcome of the external receiver hook, as seen by resolution: whether
the external call completed successfully and the used amount it declared
(spec §4.4). -/
structure Outcome where
  success : Bool
  value : Nat
deriving DecidableEq, Repr

/-- Fungible contract state: the ledger plus the in-flight
transfer-and-notify records. -/
structure FTS where
  ft : FT
  pending : List Pending
deriving DecidableEq, Repr

/-- Result of the resolution entry point: the new state, the settled
(used) amount it returns, the burned amount, and whether the
`on_tokens_burned` collaborator hook fired (src/cmn/ft.rs lines 222-224
invoke it exactly when the burned amount is positive). -/
structure ResolveResult where
  st : FTS
  usedAmount : Nat
  burnedAmount : Nat
  onTokensBurnedInvoked : Bool
deriving DecidableEq, Repr

/-- Modelled from the spec: `transfer_call` phase 1 (spec §4.3): same
preconditions as `transfer`, pessimistic debit of the sender with the
receiver credited before the external call (the receiver's hook "observes
post-transfer state", §4.4 step 1), and a `PendingTransfer` recorded.
Called through `ft_transfer_call` in src/cmn/ft.rs lines 191-200. -/
def FTS.transferCall (st : FTS) (sender receiver : AccountId) (amount : Nat) :
    Except Err FTS :=
  (st.ft.transfer sender receiver amount).map
    (fun ft1 => { ft := ft1, pending := ⟨sender, receiver, amount⟩ :: st.pending })

/-- Modelled from the spec: `ft_resolve_transfer` (spec §4.4 step 3 and
src/cmn/ft.rs lines 211-227).  The entry point first verifies that its
invoker is the contract itself (the `#[private]` attribute in the macro),
failing with `AuthorizationError` otherwise.  It then consumes the pending
transfer: `declared_used = outcome.success ? min(amount, outcome.value) :
0`, `unused = amount - declared_used`; the refund moved back from the
receiver is capped by the receiver's remaining balance, forced by §3's sum
invariant together with §7's rule that resolution itself must never fail
(the receiver may have spent the optimistic credit during the hook).  If
the sender is still registered the refund is re-credited to it; if the
sender was unregistered in the interim the refund is burned from
`total_supply` and the `on_tokens_burned` hook fires. -/
def FTS.resolveTransfer (st : FTS) (contractId caller : AccountId) (p : Pending)
    (out : Outcome) : Except Err ResolveResult :=
  if caller ≠ contractId then .error .AuthorizationError
  else if p ∈ st.pending then
    let declaredUsed := if out.success then min p.amount out.value else 0
    let unused := p.amount - declaredUsed
    let recvBal := (alookup st.ft.accounts p.receiver).getD 0
    let refund := min unused recvBal
    match alookup st.ft.accounts p.sender with
    | some sbal =>
      let accounts1 :=
        if refund = 0 then st.ft.accounts
        else aset (aset st.ft.accounts p.receiver (recvBal - refund)) p.sender (sbal + refund)
      .ok ⟨⟨⟨accounts1, st.ft.totalSupply⟩, removeFirst st.pending p⟩, declaredUsed, 0, false⟩
    | none =>
      let accounts1 :=
        if refund = 0 then st.ft.accounts
        else aset st.ft.accounts p.receiver (recvBal - refund)
      .ok ⟨⟨⟨accounts1, st.ft.totalSupply - refund⟩, removeFirst st.pending p⟩,
        declaredUsed, refund, decide (0 < refund)⟩
  else .error .PendingNotFound

/-- Modelled from the spec: `register` via `storage_deposit` (spec §4.2)
creates a zero-balance entry, failing with `AlreadyRegistered` when the
account exists.  The NEAR-native storage escrow is payment plumbing
outside the token ledger and is not part of the balance map. -/
def FTS.register (st : FTS) (a : AccountId) : Except Err FTS :=
  if (alookup st.ft.accounts a).isSome then .error .AlreadyRegistered
  else .ok { st with ft := { st.ft with accounts := aset st.ft.accounts a 0 } }

/-- Modelled from the spec: `unregister(account, force)` (spec §4.2) fails
with `StillHoldingAssets` unless the balance is zero or `force` is set;
removing the account discards its remaining holdings, which leaves the
circulating supply reduced by the discarded balance (the §3 sum invariant
forces this accounting).  Returns the discarded balance. -/
def FTS.unregister (st : FTS) (a : AccountId) (force : Bool) : Except Err (FTS × Nat) :=
  match alookup st.ft.accounts a with
  | none => .error .NotRegistered
  | some bal =>
    if bal = 0 ∨ force then
      .ok ({ st with
        ft := { accounts := aremove st.ft.accounts a,
                totalSupply := st.ft.totalSupply - bal } }, bal)
    else .error .StillHoldingAssets

/-- Labels for the fungible contract's mutating entry points. -/
inductive FtOp where
  | transfer (sender receiver : AccountId) (amount : Nat)
  | transferCall (sender receiver : AccountId) (amount : Nat)
  | resolve (caller : AccountId) (p : Pending) (out : Outcome)
  | register (account : AccountId)
  | unregister (account : AccountId) (force : Bool)
deriving DecidableEq, Repr

/-- Whether an operation is the resolution entry point. -/
def FtOp.isResolve : FtOp → Bool
  | .resolve _ _ _ => true
  | _ => false

/-- Whether an operation is a forced unregistration. -/
def FtOp.isForcedUnregister : FtOp → Bool
  | .unregister _ force => force
  | _ => false

/-- Apply one entry point to the fungible contract state; `none` means the
call aborted with an error, discarding all of its state changes (spec §7:
outside resolution any error aborts the whole invocation). -/
def applyFtOp (contractId : AccountId) (op : FtOp) (st : FTS) : Option FTS :=
  match op with
  | .transfer s r a => ((st.ft.transfer s r a).map (fun ft1 => { st with ft := ft1 })).toOption
  | .transferCall s r a => (st.transferCall s r a).toOption
  | .resolve caller p out =>
      ((st.resolveTransfer contractId caller p out).map (·.st)).toOption
  | .register a => (st.register a).toOption
  | .unregister a force => ((st.unregister a force).map (·.1)).toOption

/-- Reachable states of the fungible contract deployed as `contractId`:
constructed by `FungibleToken::new` and closed under the mutating entry
points. -/
inductive ReachableFT (contractId : AccountId) : FTS → Prop
  | init (owner : AccountId) (supply : Nat) :
      ReachableFT contractId ⟨FT.new owner supply, []⟩
  | step {st st' : FTS} (op : FtOp) :
      ReachableFT contractId st → applyFtOp contractId op st = some st' →
      ReachableFT contractId st'

/-! ## Non-fungible registry and approval manager

Modelled from the spec: the `NonFungibleRegistry + ApprovalManager`
component (§4.5), implemented upstream in `near_contract_standards` and
called through `src/cmn/nft.rs`. -/

/-- One non-fungible token record: current owner, its approval table
(kept in grant order, oldest first, for the deterministic eviction
policy), and the per-token monotonic `next_approval_id` counter. -/
structure Token where
  owner : AccountId
  approvals : List (AccountId × Nat)
  nextApprovalId : Nat
deriving DecidableEq, Repr

/-- Transient record of an in-flight non-fungible transfer-and-notify
call (spec §3, `PendingTransfer`). -/
structure NPending where
  previousOwner : AccountId
  receiver : AccountId
  tokenId : TokenId
deriving DecidableEq, Repr

/-- Outcome of the external `nft_on_transfer` hook as seen by resolution:
the receiver accepted the token, explicitly declined it, or the external
call failed (spec §4.4). -/
inductive NftOutcome where
  | accepted
  | declined
  | failed
deriving DecidableEq, Repr

/-- Non-fungible contract state: the account registry, the token registry
(`owner_by_id` plus per-token approval data), the owner → token-set index,
the in-flight transfer records, and the configured maximum approval-table
size. -/
structure NFTS where
  registered : List AccountId
  tokens : List (TokenId × Token)
  ownerIdx : List (AccountId × List TokenId)
  pending : List NPending
  approvalCap : Nat
deriving DecidableEq, Repr

/-- Token set currently indexed for an owner (empty when the account has
no index entry). -/
def getIdxL (l : List (AccountId × List TokenId)) (a : AccountId) : List TokenId :=
  (alookup l a).getD []

/-- Modelled from the spec: `NonFungibleToken::new` (src/cmn/nft.rs lines
305-324) creates an empty registry owned by `owner`; the approval-table
capacity is the configured maximum size of spec §4.5. -/
def NFTS.new (owner : AccountId) (cap : Nat) : NFTS :=
  { registered := [owner], tokens := [], ownerIdx := [], pending := [], approvalCap := cap }

/-- Modelled from the spec: `mint(token_id, owner, metadata)` fails with
`TokenAlreadyExists` if the id is present, else creates the token and adds
it to the owner's set (spec §4.5); called through `nft_mint` in
src/cmn/nft.rs lines 443-451.  Metadata does not affect ownership and is
omitted. -/
def NFTS.mint (st : NFTS) (tid : TokenId) (owner : AccountId) : Except Err NFTS :=
  if (alookup st.tokens tid).isSome then .error .TokenAlreadyExists
  else
    .ok { st with
      tokens := aset st.tokens tid ⟨owner, [], 1⟩,
      ownerIdx := aset st.ownerIdx owner (tid :: getIdxL st.ownerIdx owner) }

/-- Unguarded ownership reassignment: move the token from its current
owner to `newOwner`, clearing all approvals (the new owner starts with
none, spec §4.5) while keeping the monotonic approval-id counter. -/
def NFTS.reassign (st : NFTS) (tid : TokenId) (tok : Token) (newOwner : AccountId) : NFTS :=
  let idx1 := aset st.ownerIdx tok.owner ((getIdxL st.ownerIdx tok.owner).filter (· ≠ tid))
  { st with
    tokens := aset st.tokens tid { tok with owner := newOwner, approvals := [] },
    ownerIdx := aset idx1 newOwner (tid :: getIdxL idx1 newOwner) }

/-- Whether `sender` may move the token: it is the owner, or it supplies
an `approval_id` that matches the token's current approval entry for
`sender` (spec §4.5). -/
def isAuthorized (tok : Token) (sender : AccountId) (approvalId : Option Nat) : Bool :=
  sender == tok.owner ||
    match approvalId with
    | some aid => alookup tok.approvals sender == some aid
    | none => false

/-- Modelled from the spec: `transfer(sender, token_id, receiver,
approval_id?, memo)` fails with `TokenNotFound`, then `NotOwnerOrApproved`,
then `SelfTransfer` if `sender == receiver`; on success reassigns the
owner and clears all approvals (spec §4.5); called through `nft_transfer`
in src/cmn/nft.rs lines 331-340. -/
def NFTS.transfer (st : NFTS) (sender : AccountId) (tid : TokenId) (receiver : AccountId)
    (approvalId : Option Nat) : Except Err NFTS :=
  match alookup st.tokens tid with
  | none => .error .TokenNotFound
  | some tok =>
    if ¬ isAuthorized tok sender approvalId then .error .NotOwnerOrApproved
    else if sender = receiver then .error .SelfTransfer
    else .ok (st.reassign tid tok receiver)

/-- Modelled from the spec: `nft_transfer_call` phase 1 — the same
ownership reassignment as `transfer`, performed before the external call
is dispatched, plus a `PendingTransfer` recording the previous owner
(spec §4.4 step 1; src/cmn/nft.rs lines 342-352). -/
def NFTS.transferCall (st : NFTS) (sender : AccountId) (tid : TokenId) (receiver : AccountId)
    (approvalId : Option Nat) : Except Err NFTS :=
  match alookup st.tokens tid with
  | none => .error .TokenNotFound
  | some tok =>
    if ¬ isAuthorized tok sender approvalId then .error .NotOwnerOrApproved
    else if sender = receiver then .error .SelfTransfer
    else
      .ok { st.reassign tid tok receiver with
        pending := ⟨tok.owner, receiver, tid⟩ :: st.pending }

/-- Modelled from the spec: `nft_resolve_transfer` (spec §4.4 step 3;
src/cmn/nft.rs lines 359-377).  The entry point first verifies that its
invoker is the contract itself (the `#[private]` attribute in the macro),
failing with `AuthorizationError` otherwise, then consumes the pending
record.  On accept it returns `true`.  On failure or explicit decline it
returns `false`, reassigning the token back to the original owner (and
clearing approvals acquired during the transfer) when that owner is still
registered, and leaving the token where it is when the original owner is
no longer registered.  The token is never destroyed. -/
def NFTS.resolveTransfer (st : NFTS) (contractId caller : AccountId) (p : NPending)
    (out : NftOutcome) : Except Err (NFTS × Bool) :=
  if caller ≠ contractId then .error .AuthorizationError
  else if p ∈ st.pending then
    let st0 := { st with pending := removeFirst st.pending p }
    if out = .accepted then .ok (st0, true)
    else
      match alookup st0.tokens p.tokenId with
      | none => .ok (st0, false)
      | some tok =>
        if p.previousOwner ∈ st0.registered then
          .ok (st0.reassign p.tokenId tok p.previousOwner, false)
        else .ok (st0, false)
  else .error .PendingNotFound

/-- Modelled from the spec: `approve(token_id, account, msg?)` (spec
§4.5): only the current owner may call; the grant gets the token's
`next_approval_id` (post-increment); a previous entry for the same account
is replaced; when the approval set would exceed the configured maximum
size the oldest entries are evicted (deterministic evict-oldest policy,
spec §8 boundary case and §9).  Called through `nft_approve` in
src/cmn/nft.rs lines 382-389.  Returns the assigned approval id. -/
def NFTS.approve (st : NFTS) (caller : AccountId) (tid : TokenId) (account : AccountId) :
    Except Err (NFTS × Nat) :=
  match alookup st.tokens tid with
  | none => .error .TokenNotFound
  | some tok =>
    if caller ≠ tok.owner then .error .NotOwner
    else
      let aid := tok.nextApprovalId
      let appended := (tok.approvals.filter (fun e => e.1 ≠ account)) ++ [(account, aid)]
      let kept :=
        if st.approvalCap < appended.length then
          appended.drop (appended.length - st.approvalCap)
        else appended
      .ok ({ st with
        tokens := aset st.tokens tid { tok with approvals := kept, nextApprovalId := aid + 1 } },
        aid)

/-- Modelled from the spec: `revoke(token_id, account)` (spec §4.5):
owner-only; removes the account's entry. -/
def NFTS.revoke (st : NFTS) (caller : AccountId) (tid : TokenId) (account : AccountId) :
    Except Err NFTS :=
  match alookup st.tokens tid with
  | none => .error .TokenNotFound
  | some tok =>
    if caller ≠ tok.owner then .error .NotOwner
    else
      .ok { st with
        tokens := aset st.tokens tid
          { tok with approvals := tok.approvals.filter (fun e => e.1 ≠ account) } }

/-- Modelled from the spec: `revoke_all(token_id)` (spec §4.5):
owner-only; removes every entry. -/
def NFTS.revokeAll (st : NFTS) (caller : AccountId) (tid : TokenId) : Except Err NFTS :=
  match alookup st.tokens tid with
  | none => .error .TokenNotFound
  | some tok =>
    if caller ≠ tok.owner then .error .NotOwner
    else .ok { st with tokens := aset st.tokens tid { tok with approvals := [] } }

/-- Modelled from the spec: account registration for the non-fungible
contract (spec §4.2). -/
def NFTS.register (st : NFTS) (a : AccountId) : Except Err NFTS :=
  if a ∈ st.registered then .error .AlreadyRegistered
  else .ok { st with registered := a :: st.registered }

/-- Modelled from the spec: `unregister(account, force)` (spec §4.2)
fails with `StillHoldingAssets` unless the account's token set is empty or
`force` is set.  Because non-fungible tokens are never implicitly
destroyed (spec §3), a forced unregistration only removes the account from
the registry; its tokens keep their recorded owner. -/
def NFTS.unregister (st : NFTS) (a : AccountId) (force : Bool) : Except Err NFTS :=
  if a ∈ st.registered then
    if getIdxL st.ownerIdx a = [] ∨ force then
      .ok { st with registered := st.registered.filter (· ≠ a) }
    else .error .StillHoldingAssets
  else .error .NotRegistered

/-- Labels for the non-fungible contract's mutating entry points. -/
inductive NftOp where
  | mint (tid : TokenId) (owner : AccountId)
  | transfer (sender : AccountId) (tid : TokenId) (receiver : AccountId)
      (approvalId : Option Nat)
  | transferCall (sender : AccountId) (tid : TokenId) (receiver : AccountId)
      (approvalId : Option Nat)
  | resolve (caller : AccountId) (p : NPending) (out : NftOutcome)
  | approve (caller : AccountId) (tid : TokenId) (account : AccountId)
  | revoke (caller : AccountId) (tid : TokenId) (account : AccountId)
  | revokeAll (caller : AccountId) (tid : TokenId)
  | register (account : AccountId)
  | unregister (account : AccountId) (force : Bool)
deriving DecidableEq, Repr

/-- Apply one entry point to the non-fungible contract state; `none`
means the call aborted with an error, discarding its state changes. -/
def applyNftOp (contractId : AccountId) (op : NftOp) (st : NFTS) : Option NFTS :=
  match op with
  | .mint tid owner => (st.mint tid owner).toOption
  | .transfer s tid r aid => (st.transfer s tid r aid).toOption
  | .transferCall s tid r aid => (st.transferCall s tid r aid).toOption
  | .resolve caller p out =>
      ((st.resolveTransfer contractId caller p out).map (·.1)).toOption
  | .approve caller tid account => ((st.approve caller tid account).map (·.1)).toOption
  | .revoke caller tid account => (st.revoke caller tid account).toOption
  | .revokeAll caller tid => (st.revokeAll caller tid).toOption
  | .register a => (st.register a).toOption
  | .unregister a force => (st.unregister a force).toOption

/-- Reachable states of the non-fungible contract deployed as
`contractId`: constructed by `NonFungibleToken::new` and closed under the
mutating entry points. -/
inductive ReachableNFT (contractId : AccountId) : NFTS → Prop
  | init (owner : AccountId) (cap : Nat) : ReachableNFT contractId (NFTS.new owner cap)
  | step {st st' : NFTS} (op : NftOp) :
      ReachableNFT contractId st → applyNftOp contractId op st = some st' →
      ReachableNFT contractId st'

/-- Well-formedness carried by the reachability induction for the
fungible ledger: the balances sum to the supply, and every in-flight
transfer has distinct sender and receiver. -/
def FtWf (st : FTS) : Prop :=
  sumv st.ft.accounts = st.ft.totalSupply ∧
    ∀ q ∈ st.pending, q.sender ≠ q.receiver

/-- Ownership coherence invariant of the non-fungible registry (spec §3
and §8): an account's indexed token set contains a token id exactly when
the token registry records that account as the owner. -/
def NftInv (st : NFTS) : Prop :=
  ∀ a tid, tid ∈ getIdxL st.ownerIdx a ↔ (alookup st.tokens tid).map Token.owner = some a

/-! ## The example contract in `src/lib.rs`

Embedded directly from the source.  `env::sha256` is the NEAR host's
SHA-256 primitive, external to the repository, so it is a parameter of the
embedding: an arbitrary function from the input bytes to the digest bytes.
Methods taking `&self` in Rust are embedded in state-passing style,
returning the (unchanged) state alongside the value. -/

/-- UTF-8 bytes of a string, as natural numbers below 256 — the `&[u8]`
view that `AsRef<[u8]>` hands to the hash function. -/
def strBytes (s : String) : List Nat := s.toUTF8.toList.map (fun b => b.toNat)

/-- Two lowercase hexadecimal digits of one byte, high nibble first — the
per-byte behavior of `encode_hex::<String>()` from the `hex` crate. -/
def byteHex (b : Nat) : List Char := [Nat.digitChar (b / 16 % 16), Nat.digitChar (b % 16)]

/-- Lowercase hexadecimal encoding of a byte sequence
(`encode_hex::<String>()`). -/
def encodeHex (bs : List Nat) : String := String.mk (bs.map byteHex).flatten

/-- Helper `hash(s, h) = h(s.as_ref())` from src/cmn/utils.rs lines
11-14. -/
def hashWith (h : List Nat → List Nat) (s : String) : List Nat := h (strBytes s)

/-- Contract state from src/lib.rs lines 5-9: the stored solution
string. -/
structure Contract where
  solution : String
deriving DecidableEq, Repr

/-- Private associated function `Contract::hash` (src/lib.rs lines
13-15): the lowercase hex encoding of the host hash of the input. -/
def Contract.hash (sha256 : List Nat → List Nat) (s : String) : String :=
  encodeHex (hashWith sha256 s)

/-- Initializer `Contract::new(solution)` (src/lib.rs lines 18-22). -/
def Contract.new (solution : String) : Contract := { solution := solution }

/-- Query `get_solution` (src/lib.rs lines 24-26). -/
def Contract.get_solution (c : Contract) : String := c.solution

/-- Mutator `set_solution` (src/lib.rs lines 28-30). -/
def Contract.set_solution (c : Contract) (solution : String) : Contract :=
  { c with solution := solution }

/-- Dispatch-level view of `set_solution`: the `#[near_bindgen]` wrapper
exposes it to every caller with no predecessor check (no `#[private]`
attribute, unlike the resolvers), so the caller id does not influence the
result. -/
def Contract.set_solution_from (_caller : AccountId) (c : Contract) (solution : String) :
    Contract :=
  c.set_solution solution

/-- Method `guess_solution(text)` (src/lib.rs lines 32-40): compares the
stored solution with the hash of the guess; takes `&self`, so the state is
returned unchanged. -/
def Contract.guess_solution (sha256 : List Nat → List Nat) (c : Contract) (text : String) :
    Bool × Contract :=
  if c.solution = Contract.hash sha256 text then (true, c) else (false, c)

/-! ## General facts about the association-list primitives -/

theorem sumv_cons {α : Type} (x : α × Nat) (t : List (α × Nat)) :
    sumv (x :: t) = x.2 + sumv t := by
  simp [sumv]

theorem alookup_aset_self {α β : Type} [DecidableEq α] (l : List (α × β)) (a : α) (v : β) :
    alookup (aset l a v) a = some v := by
  induction l with
  | nil => simp [aset, alookup]
  | cons hd t ih =>
    obtain ⟨b, w⟩ := hd
    by_cases hba : b = a
    · simp [aset, hba, alookup]
    · simp [aset, hba, alookup, ih]

theorem alookup_aset_ne {α β : Type} [DecidableEq α] (l : List (α × β)) (a a' : α) (v : β)
    (h : a' ≠ a) : alookup (aset l a v) a' = alookup l a' := by
  have hne : ¬ a = a' := fun hh => h hh.symm
  induction l with
  | nil => simp [aset, alookup, hne]
  | cons hd t ih =>
    obtain ⟨b, w⟩ := hd
    by_cases hba : b = a
    · subst hba
      simp [aset, alookup, hne]
    · simp [aset, hba, alookup, ih]

theorem sumv_aset {α : Type} [DecidableEq α] (l : List (α × Nat)) (a : α) (v v' : Nat)
    (h : alookup l a = some v) : sumv (aset l a v') + v = sumv l + v' := by
  induction l with
  | nil => simp [alookup] at h
  | cons hd t ih =>
    obtain ⟨b, w⟩ := hd
    by_cases hba : b = a
    · subst hba
      simp [alookup] at h
      subst h
      simp [aset, sumv_cons]
      omega
    · simp [alookup, hba] at h
      have ih2 := ih h
      simp [aset, hba, sumv_cons]
      omega

theorem sumv_aset_absent {α : Type} [DecidableEq α] (l : List (α × Nat)) (a : α) (v' : Nat)
    (h : alookup l a = none) : sumv (aset l a v') = sumv l + v' := by
  induction l with
  | nil => simp [aset, sumv]
  | cons hd t ih =>
    obtain ⟨b, w⟩ := hd
    by_cases hba : b = a
    · simp [alookup, hba] at h
    · simp [alookup, hba] at h
      have ih2 := ih h
      simp [aset, hba, sumv_cons]
      omega

theorem sumv_aremove {α : Type} [DecidableEq α] (l : List (α × Nat)) (a : α) (v : Nat)
    (h : alookup l a = some v) : sumv (aremove l a) + v = sumv l := by
  induction l with
  | nil => simp [alookup] at h
  | cons hd t ih =>
    obtain ⟨b, w⟩ := hd
    by_cases hba : b = a
    · subst hba
      simp [alookup] at h
      subst h
      simp [aremove, sumv_cons]
      omega
    · simp [alookup, hba] at h
      have ih2 := ih h
      simp [aremove, hba, sumv_cons]
      omega

theorem alookup_le_sumv {α : Type} [DecidableEq α] (l : List (α × Nat)) (a : α) (v : Nat)
    (h : alookup l a = some v) : v ≤ sumv l := by
  induction l with
  | nil => simp [alookup] at h
  | cons hd t ih =>
    obtain ⟨b, w⟩ := hd
    by_cases hba : b = a
    · simp [alookup, hba] at h
      subst h
      simp [sumv_cons]
    · simp [alookup, hba] at h
      have ih2 := ih h
      simp [sumv_cons]
      omega

/-- C9: for every stored solution string and every input text,
`Contract::guess_solution(t)` returns `true` if and only if the stored
solution equals the lowercase hexadecimal encoding of `sha256(t)` (for the
host's SHA-256 function, quantified here), and the call leaves the stored
solution unchanged. -/
theorem guess_solution_iff_hash_and_pure (sha256 : List Nat → List Nat) (c : Contract)
    (t : String) :
    ((Contract.guess_solution sha256 c t).1 = true ↔
      c.solution = encodeHex (sha256 (strBytes t))) ∧
    (Contract.guess_solution sha256 c t).2 = c := by
  unfold Contract.guess_solution Contract.hash hashWith
  by_cases h : c.solution = encodeHex (sha256 (strBytes t))
  · simp [h]
  · simp [h]

/-- C10: `get_solution` returns exactly the string passed to
`Contract::new`, and exactly the string passed to `set_solution`, for any
pre-existing state and any caller (there is no authorization check on
`set_solution`). -/
theorem solution_round_trip (s : String) (c : Contract) (caller : AccountId) :
    (Contract.new s).get_solution = s ∧
    (c.set_solution s).get_solution = s ∧
    Contract.set_solution_from caller c s = c.set_solution s := by
  exact ⟨rfl, rfl, rfl⟩


/-- Filtering out a key that is not present leaves an association list
unchanged. -/
theorem filter_eq_self_of_alookup_none {α β : Type} [DecidableEq α]
    (l : List (α × β)) (a : α) (h : alookup l a = none) :
    l.filter (fun e => e.1 ≠ a) = l := by
  induction l with
  | nil => rfl
  | cons hd t ih =>
    obtain ⟨b, w⟩ := hd
    by_cases hba : b = a
    · simp [alookup, hba] at h
    · simp [alookup, hba] at h
      have ih2 := ih h
      simp only [List.filter_cons]
      rw [if_pos (by simp [hba]), ih2]

/-! ## Claim theorems -/

/-- C4: scenario 2 of the spec, run end to end on the model.  Starting
from `FungibleToken::new` with sender `s` owning supply 100, registering
receiver `r`, executing `ft_transfer_call(s→r, 100)`, and resolving with
the receiver hook having declared 40 used before its call chain ended,
resolution re-credits `s` with exactly 60: final balances are `s = 60`
(regained 60), `r = 40`, the total supply is unchanged at 100, and the
settled amount returned is 40. -/
theorem ft_transfer_call_partial_use_scenario :
    ((((some (⟨FT.new "s" 100, []⟩ : FTS)).bind
        (fun st => (st.register "r").toOption)).bind
        (fun st => (st.transferCall "s" "r" 100).toOption)).bind
        (fun st => ((st.resolveTransfer "c" "c" ⟨"s", "r", 100⟩ ⟨true, 40⟩).map
          (fun r => (alookup r.st.ft.accounts "s", alookup r.st.ft.accounts "r",
            r.st.ft.totalSupply, r.usedAmount))).toOption))
      = some (some 60, some 40, 100, 40) := by
  decide

/-- C2: the resolution entry points (`ft_resolve_transfer` and
`nft_resolve_transfer`, both `#[private]`) fail with `AuthorizationError`
for every caller other than the contract account itself, settling nothing
— the error return carries no successor state, so the ledger is unchanged
— and a successful resolution implies the caller was the contract
itself. -/
theorem resolve_requires_contract_caller (cid caller : AccountId) (st : FTS) (p : Pending)
    (out : Outcome) (nst : NFTS) (np : NPending) (nout : NftOutcome) (r : ResolveResult)
    (nr : NFTS × Bool) :
    (caller ≠ cid → st.resolveTransfer cid caller p out = .error .AuthorizationError) ∧
    (caller ≠ cid → nst.resolveTransfer cid caller np nout = .error .AuthorizationError) ∧
    (st.resolveTransfer cid caller p out = .ok r → caller = cid) ∧
    (nst.resolveTransfer cid caller np nout = .ok nr → caller = cid) := by
  by_cases hc : caller = cid
  · refine ⟨fun h => absurd hc h, fun h => absurd hc h, fun _ => hc, fun _ => hc⟩
  · refine ⟨fun _ => ?_, fun _ => ?_, fun h => ?_, fun h => ?_⟩
    · simp [FTS.resolveTransfer, hc]
    · simp [NFTS.resolveTransfer, hc]
    · simp [FTS.resolveTransfer, hc] at h
    · simp [NFTS.resolveTransfer, hc] at h

/-- Witness for C2 at concrete inputs: an external caller `mallory`
invoking either resolver of contract `c` gets `AuthorizationError`. -/
theorem resolve_requires_contract_caller_witness :
    (⟨⟨[("s", 5)], 5⟩, [⟨"s", "r", 5⟩]⟩ : FTS).resolveTransfer "c" "mallory"
        ⟨"s", "r", 5⟩ ⟨true, 5⟩ = .error .AuthorizationError ∧
    (NFTS.new "a" 2).resolveTransfer "c" "mallory" ⟨"a", "b", "0"⟩ .accepted
        = .error .AuthorizationError := by
  have h := resolve_requires_contract_caller "c" "mallory" ⟨⟨[("s", 5)], 5⟩, [⟨"s", "r", 5⟩]⟩
    ⟨"s", "r", 5⟩ ⟨true, 5⟩ (NFTS.new "a" 2) ⟨"a", "b", "0"⟩ .accepted
    ⟨⟨⟨[], 0⟩, []⟩, 0, 0, false⟩ (NFTS.new "a" 2, false)
  exact ⟨h.1 (by decide), h.2.1 (by decide)⟩

/-- C8: the approval-table eviction policy.  General clause: when the
owner approves a fresh account while the approval set is exactly at the
configured capacity (at least 1), the oldest entry is evicted — the new
set is the old one minus its head, plus the new grant carrying the
token's `next_approval_id`, which is also the returned approval id.
Concrete clause: with capacity 2, minting token `"0"` to `a` and
approving `b1`, `b2`, `b3` in sequence leaves exactly the two-entry set
`[(b2, 2), (b3, 3)]`, the oldest grant `b1` having been evicted. -/
theorem nft_approve_evicts_oldest (st : NFTS) (tid : TokenId) (account : AccountId)
    (tok : Token)
    (htok : alookup st.tokens tid = some tok)
    (hfresh : alookup tok.approvals account = none)
    (hfull : tok.approvals.length = st.approvalCap)
    (hcap : 1 ≤ st.approvalCap) :
    (st.approve tok.owner tid account).map
        (fun r => ((alookup r.1.tokens tid).map (fun tk => tk.approvals), r.2))
      = .ok (some (tok.approvals.drop 1 ++ [(account, tok.nextApprovalId)]),
          tok.nextApprovalId) ∧
    ((((some (NFTS.new "a" 2)).bind (fun st0 => (st0.mint "0" "a").toOption)).bind
        (fun st0 => ((st0.approve "a" "0" "b1").map (·.1)).toOption)).bind
        (fun st0 => ((st0.approve "a" "0" "b2").map (·.1)).toOption)).bind
        (fun st0 => ((st0.approve "a" "0" "b3").map
          (fun r => (alookup r.1.tokens "0").map (fun tk => tk.approvals))).toOption)
      = some (some [("b2", 2), ("b3", 3)]) := by
  constructor
  · have hfilter := filter_eq_self_of_alookup_none tok.approvals account hfresh
    simp only [NFTS.approve, htok]
    rw [if_neg (fun hh => hh rfl : ¬ tok.owner ≠ tok.owner)]
    rw [hfilter]
    have hlen : (tok.approvals ++ [(account, tok.nextApprovalId)]).length
        = st.approvalCap + 1 := by
      simp [hfull]
    rw [hlen, if_pos (by omega)]
    have hdrop : st.approvalCap + 1 - st.approvalCap = 1 := by omega
    rw [hdrop, List.drop_append_of_le_length (by omega)]
    simp only [Except.map]
    rw [alookup_aset_self]
    rfl
  · decide

/-- Witness for C8's general clause at a concrete input: a token at
capacity 2 with approvals `[(b1, 1), (b2, 2)]` and counter 3; approving
`b3` evicts `b1` and yields `[(b2, 2), (b3, 3)]`, returning id 3. -/
theorem nft_approve_evicts_oldest_witness :
    ((⟨["a"], [("0", ⟨"a", [("b1", 1), ("b2", 2)], 3⟩)], [("a", ["0"])], [], 2⟩ :
        NFTS).approve "a" "0" "b3").map
        (fun r => ((alookup r.1.tokens "0").map (fun tk => tk.approvals), r.2))
      = .ok (some [("b2", 2), ("b3", 3)], 3) := by
  exact (nft_approve_evicts_oldest
    ⟨["a"], [("0", ⟨"a", [("b1", 1), ("b2", 2)], 3⟩)], [("a", ["0"])], [], 2⟩
    "0" "b3" ⟨"a", [("b1", 1), ("b2", 2)], 3⟩ (by decide) (by decide) (by decide)
    (by decide)).1

/-- C6: `ft_transfer` fails with `SelfTransfer` when sender = receiver,
with `ZeroAmount` when the amount is 0 (and the transfer is not a
self-transfer, the earlier check), with `ReceiverNotRegistered` when the
receiver is absent, and with `InsufficientBalance` when the amount exceeds
the sender's balance; otherwise it atomically withdraws the amount from
the sender and deposits it to the receiver, leaving the total supply and
every other account untouched. -/
theorem ft_transfer_error_and_success_cases (ft : FT) (sender receiver other : AccountId)
    (amount sbal rbal : Nat) :
    (sender = receiver → FT.transfer ft sender receiver amount = .error .SelfTransfer) ∧
    (sender ≠ receiver → amount = 0 →
      FT.transfer ft sender receiver amount = .error .ZeroAmount) ∧
    (sender ≠ receiver → amount ≠ 0 → alookup ft.accounts receiver = none →
      FT.transfer ft sender receiver amount = .error .ReceiverNotRegistered) ∧
    (sender ≠ receiver → amount ≠ 0 → alookup ft.accounts receiver = some rbal →
      alookup ft.accounts sender = some sbal → sbal < amount →
      FT.transfer ft sender receiver amount = .error .InsufficientBalance) ∧
    (sender ≠ receiver → amount ≠ 0 → alookup ft.accounts receiver = some rbal →
      alookup ft.accounts sender = some sbal → amount ≤ sbal →
      (FT.transfer ft sender receiver amount).map
        (fun ft1 => (alookup ft1.accounts sender, alookup ft1.accounts receiver,
          ft1.totalSupply))
        = .ok (some (sbal - amount), some (rbal + amount), ft.totalSupply)) ∧
    (sender ≠ receiver → amount ≠ 0 → alookup ft.accounts receiver = some rbal →
      alookup ft.accounts sender = some sbal → amount ≤ sbal →
      other ≠ sender → other ≠ receiver →
      (FT.transfer ft sender receiver amount).map
        (fun ft1 => alookup ft1.accounts other) = .ok (alookup ft.accounts other)) := by
  refine ⟨fun h => ?_, fun h1 h2 => ?_, fun h1 h2 h3 => ?_, fun h1 h2 h3 h4 h5 => ?_,
    fun h1 h2 h3 h4 h5 => ?_, fun h1 h2 h3 h4 h5 h6 h7 => ?_⟩
  · simp [FT.transfer, h]
  · simp [FT.transfer, h1, h2]
  · simp [FT.transfer, h1, h2, h3]
  · have h6 : ¬ amount ≤ sbal := by omega
    simp [FT.transfer, FT.withdraw, Except.bind, h1, h2, h3, h4, h6]
  · have hs2 : alookup (aset (aset ft.accounts sender (sbal - amount)) receiver
        (rbal + amount)) sender = some (sbal - amount) := by
      rw [alookup_aset_ne _ _ _ _ h1]
      exact alookup_aset_self ft.accounts sender (sbal - amount)
    have hrecv1 : alookup (aset ft.accounts sender (sbal - amount)) receiver = some rbal := by
      rw [alookup_aset_ne _ _ _ _ (Ne.symm h1)]
      exact h3
    simp [FT.transfer, FT.withdraw, FT.deposit, Except.bind, Except.map, h1, h2,
      h3, h4, h5, hrecv1, hs2, alookup_aset_self]
  · have hrecv1 : alookup (aset ft.accounts sender (sbal - amount)) receiver = some rbal := by
      rw [alookup_aset_ne _ _ _ _ (Ne.symm h1)]
      exact h3
    have ho : alookup (aset (aset ft.accounts sender (sbal - amount)) receiver
        (rbal + amount)) other = alookup ft.accounts other := by
      rw [alookup_aset_ne _ _ _ _ h7, alookup_aset_ne _ _ _ _ h6]
    simp [FT.transfer, FT.withdraw, FT.deposit, Except.bind, Except.map, h1, h2,
      h3, h4, h5, hrecv1, ho]

/-- Witness for C6 at concrete inputs, one per case of the theorem. -/
theorem ft_transfer_error_and_success_cases_witness :
    FT.transfer ⟨[("s", 100), ("r", 5), ("o", 7)], 112⟩ "s" "s" 30
      = .error .SelfTransfer ∧
    FT.transfer ⟨[("s", 100), ("r", 5), ("o", 7)], 112⟩ "s" "r" 0
      = .error .ZeroAmount ∧
    FT.transfer ⟨[("s", 100), ("r", 5), ("o", 7)], 112⟩ "s" "x" 30
      = .error .ReceiverNotRegistered ∧
    FT.transfer ⟨[("s", 100), ("r", 5), ("o", 7)], 112⟩ "s" "r" 200
      = .error .InsufficientBalance ∧
    (FT.transfer ⟨[("s", 100), ("r", 5), ("o", 7)], 112⟩ "s" "r" 30).map
      (fun ft1 => (alookup ft1.accounts "s", alookup ft1.accounts "r", ft1.totalSupply))
      = .ok (some 70, some 35, 112) ∧
    (FT.transfer ⟨[("s", 100), ("r", 5), ("o", 7)], 112⟩ "s" "r" 30).map
      (fun ft1 => alookup ft1.accounts "o") = .ok (some 7) := by
  refine ⟨(ft_transfer_error_and_success_cases _ "s" "s" "o" 30 0 0).1 rfl,
    (ft_transfer_error_and_success_cases _ "s" "r" "o" 0 0 5).2.1 (by decide) rfl,
    (ft_transfer_error_and_success_cases _ "s" "x" "o" 30 0 0).2.2.1
      (by decide) (by decide) (by decide),
    (ft_transfer_error_and_success_cases _ "s" "r" "o" 200 100 5).2.2.2.1
      (by decide) (by decide) (by decide) (by decide) (by decide),
    (ft_transfer_error_and_success_cases _ "s" "r" "o" 30 100 5).2.2.2.2.1
      (by decide) (by decide) (by decide) (by decide) (by decide),
    (ft_transfer_error_and_success_cases _ "s" "r" "o" 30 100 5).2.2.2.2.2
      (by decide) (by decide) (by decide) (by decide) (by decide) (by decide) (by decide)⟩

/-- C3 (amended): fungible resolution.  With a pending transfer whose
sender and receiver differ and whose receiver is registered with balance
`rbal`, `ft_resolve_transfer` invoked by the contract itself computes
`declared_used = outcome.success ? min(amount, outcome.value) : 0` and
`unused = amount - declared_used`, and settles with the refund capped by
the receiver's remaining balance, `refund = min unused rbal`: if the
sender is still registered it is re-credited with `refund` (taken back
from the receiver, supply unchanged, nothing burned); if the sender was
unregistered in the interim, `refund` is instead subtracted from
`total_supply`, reported as the burned amount, and the `on_tokens_burned`
hook fires exactly when it is positive.  In both cases the pending record
is consumed and the entry point returns `declared_used`.  (The original
claim promises the full `unused` back; the cap is what the safe-default
settlement forces when the receiver spent the optimistic credit — see the
counterexample.) -/
theorem ft_resolve_transfer_settlement (cid : AccountId) (st : FTS) (p : Pending) (out : Outcome)
    (sbal rbal : Nat)
    (hp : p ∈ st.pending) (hsr : p.sender ≠ p.receiver)
    (hrv : alookup st.ft.accounts p.receiver = some rbal) :
    (alookup st.ft.accounts p.sender = some sbal →
      (st.resolveTransfer cid cid p out).map
        (fun r => (alookup r.st.ft.accounts p.sender, alookup r.st.ft.accounts p.receiver,
          r.st.ft.totalSupply, r.usedAmount, r.burnedAmount, r.onTokensBurnedInvoked,
          r.st.pending))
        = .ok (some (sbal + min (p.amount - (if out.success then min p.amount out.value else 0)) rbal),
            some (rbal - min (p.amount - (if out.success then min p.amount out.value else 0)) rbal),
            st.ft.totalSupply,
            if out.success then min p.amount out.value else 0, 0, false,
            removeFirst st.pending p)) ∧
    (alookup st.ft.accounts p.sender = none →
      (st.resolveTransfer cid cid p out).map
        (fun r => (alookup r.st.ft.accounts p.sender, alookup r.st.ft.accounts p.receiver,
          r.st.ft.totalSupply, r.usedAmount, r.burnedAmount, r.onTokensBurnedInvoked,
          r.st.pending))
        = .ok (none,
            some (rbal - min (p.amount - (if out.success then min p.amount out.value else 0)) rbal),
            st.ft.totalSupply - min (p.amount - (if out.success then min p.amount out.value else 0)) rbal,
            if out.success then min p.amount out.value else 0,
            min (p.amount - (if out.success then min p.amount out.value else 0)) rbal,
            decide (0 < min (p.amount - (if out.success then min p.amount out.value else 0)) rbal),
            removeFirst st.pending p)) := by
  simp only [FTS.resolveTransfer]
  rw [if_neg (fun hh => hh rfl : ¬ cid ≠ cid), if_pos hp, hrv]
  simp only [Option.getD_some]
  constructor
  · intro hs
    simp only [hs]
    by_cases hz : min (p.amount - (if out.success = true then min p.amount out.value else 0)) rbal = 0
    · rw [if_pos hz]
      simp [Except.map, hz, hs, hrv]
    · rw [if_neg hz]
      have e1 : alookup (aset (aset st.ft.accounts p.receiver
          (rbal - min (p.amount - (if out.success = true then min p.amount out.value else 0)) rbal)) p.sender
          (sbal + min (p.amount - (if out.success = true then min p.amount out.value else 0)) rbal)) p.sender
          = some (sbal + min (p.amount - (if out.success = true then min p.amount out.value else 0)) rbal) :=
        alookup_aset_self _ _ _
      have e2 : alookup (aset (aset st.ft.accounts p.receiver
          (rbal - min (p.amount - (if out.success = true then min p.amount out.value else 0)) rbal)) p.sender
          (sbal + min (p.amount - (if out.success = true then min p.amount out.value else 0)) rbal)) p.receiver
          = some (rbal - min (p.amount - (if out.success = true then min p.amount out.value else 0)) rbal) := by
        rw [alookup_aset_ne _ _ _ _ (Ne.symm hsr)]
        exact alookup_aset_self _ _ _
      simp [Except.map, e1, e2]
  · intro hs
    simp only [hs]
    by_cases hz : min (p.amount - (if out.success = true then min p.amount out.value else 0)) rbal = 0
    · rw [if_pos hz]
      simp [Except.map, hz, hs, hrv]
    · rw [if_neg hz]
      have e3 : alookup (aset st.ft.accounts p.receiver
          (rbal - min (p.amount - (if out.success = true then min p.amount out.value else 0)) rbal)) p.receiver
          = some (rbal - min (p.amount - (if out.success = true then min p.amount out.value else 0)) rbal) :=
        alookup_aset_self _ _ _
      have e4 : alookup (aset st.ft.accounts p.receiver
          (rbal - min (p.amount - (if out.success = true then min p.amount out.value else 0)) rbal)) p.sender
          = alookup st.ft.accounts p.sender := alookup_aset_ne _ _ _ _ hsr
      simp [Except.map, e3, e4, hs]

/-- Witness for C3's amended theorem at a concrete input: resolving a
pending 100-token transfer-and-notify from `s` to `r` with declared use
40 re-credits `s` with 60 and returns 40. -/
theorem ft_resolve_transfer_settlement_witness :
    ((⟨⟨[("s", 0), ("r", 100)], 100⟩, [⟨"s", "r", 100⟩]⟩ : FTS).resolveTransfer "c" "c"
        ⟨"s", "r", 100⟩ ⟨true, 40⟩).map
        (fun r => (alookup r.st.ft.accounts "s", alookup r.st.ft.accounts "r",
          r.st.ft.totalSupply, r.usedAmount, r.burnedAmount, r.onTokensBurnedInvoked,
          r.st.pending))
      = .ok (some 60, some 40, 100, 40, 0, false, []) := by
  exact (ft_resolve_transfer_settlement "c" ⟨⟨[("s", 0), ("r", 100)], 100⟩, [⟨"s", "r", 100⟩]⟩
    ⟨"s", "r", 100⟩ ⟨true, 40⟩ 0 100 (by decide) (by decide) (by decide)).1 (by decide)

/-- Counterexample to C3 as stated: the claim promises that the sender is
re-credited with the whole `unused` amount whenever it is still
registered.  Reachable run: `s` starts with supply 100, `r` and `t`
register, `ft_transfer_call(s→r, 100)` credits `r`, the receiver hook
spends the full credit (`ft_transfer(r→t, 100)`), and the external call
then fails (`unused = 100`).  Resolution leaves the still-registered
sender `s` with balance 0, not the promised `0 + 100`: the refund is
capped by the receiver's remaining balance 0. -/
theorem ft_resolve_full_refund_counterexample :
    (((((some (⟨FT.new "s" 100, []⟩ : FTS)).bind
        (fun st => (st.register "r").toOption)).bind
        (fun st => (st.register "t").toOption)).bind
        (fun st => (st.transferCall "s" "r" 100).toOption)).bind
        (fun st => ((st.ft.transfer "r" "t" 100).map
          (fun ft1 => { st with ft := ft1 })).toOption)).bind
        (fun st => ((st.resolveTransfer "c" "c" ⟨"s", "r", 100⟩ ⟨false, 0⟩).map
          (fun r => alookup r.st.ft.accounts "s")).toOption)
      = some (some 0) ∧
    some (some (0 : Nat)) ≠ some (some (0 + 100 : Nat)) := by
  decide

/-- C5: non-fungible resolution.  For a pending transfer whose token is
currently held by the receiver: when the external call failed or the
receiver explicitly declined, resolution reassigns the token back to the
original owner with all approvals acquired during the transfer cleared and
returns `false` if that owner is still registered, and leaves the token
with the receiver while still returning `false` if the original owner is
no longer registered; on accept it returns `true` with the token still at
the receiver.  In every case the token still exists afterwards — it is
never destroyed.  The stale pre-transfer approvals are already cleared by
the transfer-call itself (final clause), so no stale approval survives a
successful round trip. -/
theorem nft_resolve_transfer_settlement (cid : AccountId) (st : NFTS) (p : NPending)
    (out : NftOutcome) (tok : Token)
    (st0 : NFTS) (sender : AccountId) (tid : TokenId) (receiver : AccountId)
    (aid : Option Nat) (st1 : NFTS)
    (hp : p ∈ st.pending)
    (htok : alookup st.tokens p.tokenId = some tok)
    (howner : tok.owner = p.receiver) :
    (out ≠ .accepted → p.previousOwner ∈ st.registered →
      (st.resolveTransfer cid cid p out).map
        (fun r => ((alookup r.1.tokens p.tokenId).map (fun tk => (tk.owner, tk.approvals)),
          r.2))
        = .ok (some (p.previousOwner, []), false)) ∧
    (out ≠ .accepted → p.previousOwner ∉ st.registered →
      (st.resolveTransfer cid cid p out).map
        (fun r => ((alookup r.1.tokens p.tokenId).map (fun tk => tk.owner), r.2))
        = .ok (some p.receiver, false)) ∧
    (out = .accepted →
      (st.resolveTransfer cid cid p out).map
        (fun r => ((alookup r.1.tokens p.tokenId).map (fun tk => tk.owner), r.2))
        = .ok (some p.receiver, true)) ∧
    ((st.resolveTransfer cid cid p out).map
        (fun r => (alookup r.1.tokens p.tokenId).isSome) = .ok true) ∧
    (st0.transferCall sender tid receiver aid = .ok st1 →
      (alookup st1.tokens tid).map (fun tk => tk.approvals) = some []) := by
  refine ⟨fun hno hreg => ?_, fun hno hreg => ?_, fun hacc => ?_, ?_, fun htc => ?_⟩
  · simp only [NFTS.resolveTransfer]
    rw [if_neg (fun hh => hh rfl : ¬ cid ≠ cid), if_pos hp, if_neg hno]
    dsimp only
    rw [htok]
    dsimp only
    rw [if_pos hreg]
    simp [NFTS.reassign, Except.map, alookup_aset_self]
  · simp only [NFTS.resolveTransfer]
    rw [if_neg (fun hh => hh rfl : ¬ cid ≠ cid), if_pos hp, if_neg hno]
    dsimp only
    rw [htok]
    dsimp only
    rw [if_neg hreg]
    simp [Except.map, htok, howner]
  · simp only [NFTS.resolveTransfer]
    rw [if_neg (fun hh => hh rfl : ¬ cid ≠ cid), if_pos hp, if_pos hacc]
    simp [Except.map, htok, howner]
  · simp only [NFTS.resolveTransfer]
    rw [if_neg (fun hh => hh rfl : ¬ cid ≠ cid), if_pos hp]
    by_cases hacc : out = .accepted
    · rw [if_pos hacc]
      simp [Except.map, htok]
    · rw [if_neg hacc]
      dsimp only
      rw [htok]
      dsimp only
      by_cases hreg : p.previousOwner ∈ st.registered
      · rw [if_pos hreg]
        simp [NFTS.reassign, Except.map, alookup_aset_self]
      · rw [if_neg hreg]
        simp [Except.map, htok]
  · unfold NFTS.transferCall at htc
    cases hl : alookup st0.tokens tid with
    | none => rw [hl] at htc; simp at htc
    | some tok0 =>
      rw [hl] at htc
      dsimp only at htc
      by_cases hauth : isAuthorized tok0 sender aid = true
      · by_cases hsr2 : sender = receiver
        · rw [if_neg (by simp [hauth]), if_pos hsr2] at htc
          exact absurd htc (by simp)
        · rw [if_neg (by simp [hauth]), if_neg hsr2] at htc
          simp only [Except.ok.injEq] at htc
          subst htc
          simp [NFTS.reassign, alookup_aset_self]
      · rw [if_pos hauth] at htc
        exact absurd htc (by simp)

/-- Witness for C5 at a concrete input: token `"0"` was moved from `a` to
`b` by a transfer-and-notify; the external call fails; since `a` is still
registered, resolution returns the token to `a` with no approvals and
yields `false`. -/
theorem nft_resolve_transfer_settlement_witness :
    ((⟨["b", "a"], [("0", ⟨"b", [], 1⟩)], [("a", []), ("b", ["0"])],
        [⟨"a", "b", "0"⟩], 2⟩ : NFTS).resolveTransfer "c" "c" ⟨"a", "b", "0"⟩ .failed).map
        (fun r => ((alookup r.1.tokens "0").map (fun tk => (tk.owner, tk.approvals)), r.2))
      = .ok (some ("a", []), false) := by
  exact (nft_resolve_transfer_settlement "c"
    ⟨["b", "a"], [("0", ⟨"b", [], 1⟩)], [("a", []), ("b", ["0"])], [⟨"a", "b", "0"⟩], 2⟩
    ⟨"a", "b", "0"⟩ .failed ⟨"b", [], 1⟩
    ⟨["b", "a"], [("0", ⟨"a", [], 1⟩)], [("a", ["0"])], [], 2⟩ "a" "0" "b" none
    ⟨["b", "a"], [("0", ⟨"b", [], 1⟩)], [("a", []), ("b", ["0"])], [⟨"a", "b", "0"⟩], 2⟩
    (by decide) (by decide) (by decide)).1 (by decide) (by decide)

theorem mem_of_mem_removeFirst {α : Type} [DecidableEq α] {l : List α} {x q : α}
    (h : q ∈ removeFirst l x) : q ∈ l := by
  induction l with
  | nil => simp [removeFirst] at h
  | cons y t ih =>
    by_cases hyx : y = x
    · simp [removeFirst, hyx] at h
      simp [h]
    · simp [removeFirst, hyx] at h
      rcases h with h | h
      · simp [h]
      · simp [ih h]

theorem ft_transfer_ok_preserves {ft ft' : FT} {s r : AccountId} {a : Nat}
    (h : ft.transfer s r a = .ok ft') :
    sumv ft'.accounts = sumv ft.accounts ∧ ft'.totalSupply = ft.totalSupply ∧ s ≠ r := by
  unfold FT.transfer at h
  split_ifs at h with h1 h2 h3
  cases hw : ft.withdraw s a with
    | error e => rw [hw] at h; exact Except.noConfusion h
    | ok ft1 =>
      rw [hw] at h
      simp only [Except.bind] at h
      unfold FT.withdraw at hw
      cases hls : alookup ft.accounts s with
      | none => rw [hls] at hw; exact Except.noConfusion hw
      | some sbal =>
        rw [hls] at hw
        dsimp only at hw
        split_ifs at hw with hle
        · simp only [Except.ok.injEq] at hw
          subst hw
          unfold FT.deposit at h
          cases hlr : alookup (aset ft.accounts s (sbal - a)) r with
          | none => rw [hlr] at h; exact Except.noConfusion h
          | some rbal2 =>
            rw [hlr] at h
            simp only [Except.ok.injEq] at h
            subst h
            refine ⟨?_, rfl, h1⟩
            have e1 := sumv_aset ft.accounts s sbal (sbal - a) hls
            have e2 := sumv_aset (aset ft.accounts s (sbal - a)) r rbal2 (rbal2 + a) hlr
            have e3 : rbal2 ≤ sumv (aset ft.accounts s (sbal - a)) :=
              alookup_le_sumv _ _ _ hlr
            show sumv (aset (aset ft.accounts s (sbal - a)) r (rbal2 + a)) = sumv ft.accounts
            omega

theorem applyFtOp_preserves {cid : AccountId} {op : FtOp} {st st' : FTS}
    (h : applyFtOp cid op st = some st') (hwf : FtWf st) :
    FtWf st' ∧
      (st'.ft.totalSupply < st.ft.totalSupply →
        op.isResolve = true ∨ op.isForcedUnregister = true) := by
  obtain ⟨hsum, hpend⟩ := hwf
  cases op with
  | transfer s r a =>
    simp only [applyFtOp] at h
    cases ht : st.ft.transfer s r a with
    | error e => rw [ht] at h; exact Option.noConfusion h
    | ok ft1 =>
      rw [ht] at h
      simp only [Except.map, Except.toOption, Option.some.injEq] at h
      subst h
      obtain ⟨e1, e2, _⟩ := ft_transfer_ok_preserves ht
      exact ⟨⟨by simp [e1, e2, hsum], hpend⟩, fun hd => absurd hd (by simp [e2])⟩
  | transferCall s r a =>
    simp only [applyFtOp, FTS.transferCall] at h
    cases ht : st.ft.transfer s r a with
    | error e => rw [ht] at h; exact Option.noConfusion h
    | ok ft1 =>
      rw [ht] at h
      simp only [Except.map, Except.toOption, Option.some.injEq] at h
      subst h
      obtain ⟨e1, e2, e3⟩ := ft_transfer_ok_preserves ht
      refine ⟨⟨by simp [e1, e2, hsum], ?_⟩, fun hd => absurd hd (by simp [e2])⟩
      intro q hq
      simp only [List.mem_cons] at hq
      rcases hq with hq | hq
      · subst hq; exact e3
      · exact hpend q hq
  | register a =>
    simp only [applyFtOp, FTS.register] at h
    split_ifs at h with hreg
    · exact Option.noConfusion h
    · simp only [Except.toOption, Option.some.injEq] at h
      subst h
      have hnone : alookup st.ft.accounts a = none := by
        cases hl : alookup st.ft.accounts a with
        | none => rfl
        | some v => rw [hl] at hreg; simp at hreg
      refine ⟨⟨?_, hpend⟩, fun hd => absurd hd (by simp)⟩
      show sumv (aset st.ft.accounts a 0) = st.ft.totalSupply
      have e1 := sumv_aset_absent st.ft.accounts a 0 hnone
      omega
  | unregister a force =>
    simp only [applyFtOp, FTS.unregister] at h
    cases hla : alookup st.ft.accounts a with
    | none => rw [hla] at h; exact Option.noConfusion h
    | some bal =>
      rw [hla] at h
      dsimp only at h
      split_ifs at h with hcond
      · simp only [Except.map, Except.toOption, Option.some.injEq] at h
        subst h
        have e1 := sumv_aremove st.ft.accounts a bal hla
        have e2 : bal ≤ sumv st.ft.accounts := alookup_le_sumv _ _ _ hla
        refine ⟨⟨?_, hpend⟩, ?_⟩
        · show sumv (aremove st.ft.accounts a) = st.ft.totalSupply - bal
          omega
        · intro hd
          simp only at hd
          rcases hcond with hb | hf
          · omega
          · right
            simp [FtOp.isForcedUnregister, hf]
      · exact Option.noConfusion h
  | resolve caller p out =>
    refine ⟨?_, fun _ => Or.inl rfl⟩
    simp only [applyFtOp] at h
    cases hr : st.resolveTransfer cid caller p out with
    | error e => rw [hr] at h; exact Option.noConfusion h
    | ok r =>
      rw [hr] at h
      simp only [Except.map, Except.toOption, Option.some.injEq] at h
      subst h
      simp only [FTS.resolveTransfer] at hr
      by_cases hc : caller ≠ cid
      · rw [if_pos hc] at hr
        exact Except.noConfusion hr
      · rw [if_neg hc] at hr
        by_cases hp : p ∈ st.pending
        · rw [if_pos hp] at hr
          set declared := (if out.success = true then min p.amount out.value else 0)
            with hdecl
          set refundv := min (p.amount - declared) ((alookup st.ft.accounts p.receiver).getD 0)
            with hrf
          cases hls : alookup st.ft.accounts p.sender with
          | some sbal =>
            rw [hls] at hr
            dsimp only at hr
            by_cases hz : refundv = 0
            · rw [if_pos hz] at hr
              simp only [Except.ok.injEq] at hr
              subst hr
              exact ⟨hsum, fun q hq => hpend q (mem_of_mem_removeFirst hq)⟩
            · rw [if_neg hz] at hr
              cases hlr : alookup st.ft.accounts p.receiver with
              | none =>
                rw [hlr] at hrf
                simp at hrf
                exact absurd hrf hz
              | some rbal =>
                rw [hlr] at hr hrf
                simp only [Option.getD_some] at hr hrf
                simp only [Except.ok.injEq] at hr
                subst hr
                have hps : p.sender ≠ p.receiver := hpend p hp
                have e1 := sumv_aset st.ft.accounts p.receiver rbal (rbal - refundv) hlr
                have hlk : alookup (aset st.ft.accounts p.receiver (rbal - refundv)) p.sender
                    = some sbal := by
                  rw [alookup_aset_ne _ _ _ _ hps]
                  exact hls
                have e2 := sumv_aset (aset st.ft.accounts p.receiver (rbal - refundv))
                  p.sender sbal (sbal + refundv) hlk
                have e3 : refundv ≤ rbal := by
                  rw [hrf]
                  exact min_le_right _ _
                refine ⟨?_, fun q hq => hpend q (mem_of_mem_removeFirst hq)⟩
                show sumv (aset (aset st.ft.accounts p.receiver (rbal - refundv)) p.sender
                  (sbal + refundv)) = st.ft.totalSupply
                omega
          | none =>
            rw [hls] at hr
            dsimp only at hr
            by_cases hz : refundv = 0
            · rw [if_pos hz] at hr
              simp only [Except.ok.injEq] at hr
              subst hr
              refine ⟨?_, fun q hq => hpend q (mem_of_mem_removeFirst hq)⟩
              show sumv st.ft.accounts = st.ft.totalSupply - refundv
              omega
            · rw [if_neg hz] at hr
              cases hlr : alookup st.ft.accounts p.receiver with
              | none =>
                rw [hlr] at hrf
                simp at hrf
                exact absurd hrf hz
              | some rbal =>
                rw [hlr] at hr hrf
                simp only [Option.getD_some] at hr hrf
                simp only [Except.ok.injEq] at hr
                subst hr
                have e1 := sumv_aset st.ft.accounts p.receiver rbal (rbal - refundv) hlr
                have e3 : refundv ≤ rbal := by
                  rw [hrf]
                  exact min_le_right _ _
                have e4 : rbal ≤ sumv st.ft.accounts := alookup_le_sumv _ _ _ hlr
                refine ⟨?_, fun q hq => hpend q (mem_of_mem_removeFirst hq)⟩
                show sumv (aset st.ft.accounts p.receiver (rbal - refundv))
                  = st.ft.totalSupply - refundv
                omega
        · rw [if_neg hp] at hr
          exact Except.noConfusion hr

theorem reachable_ft_wf {cid : AccountId} {st : FTS} (h : ReachableFT cid st) : FtWf st := by
  induction h with
  | init owner supply =>
    constructor
    · simp [FT.new, sumv]
    · intro q hq
      simp at hq
  | step op hreach happ ih =>
    exact (applyFtOp_preserves happ ih).1

/-- C1 (amended): for every reachable state of the fungible contract —
after `FungibleToken::new` and any sequence of `ft_transfer`,
`ft_transfer_call`, `ft_resolve_transfer` and storage operations — the
sum of all account balances equals `total_supply`; and whenever one more
entry point strictly decreases `total_supply`, that entry point is either
the resolution step (whose burn is the only decrease an ordinary transfer
path can cause) or a forced storage unregistration that discards a
positive balance.  (The original claim allows only the resolution burn;
forced unregistration is the second decrease path the counterexample
exhibits.) -/
theorem ft_ledger_invariant (cid : AccountId) (st st' : FTS) (op : FtOp)
    (h : ReachableFT cid st) :
    sumv st.ft.accounts = st.ft.totalSupply ∧
    (applyFtOp cid op st = some st' → st'.ft.totalSupply < st.ft.totalSupply →
      op.isResolve = true ∨ op.isForcedUnregister = true) := by
  refine ⟨(reachable_ft_wf h).1, fun happ hdec => ?_⟩
  exact (applyFtOp_preserves happ (reachable_ft_wf h)).2 hdec

/-- Witness for C1's amended theorem at a concrete input: the freshly
constructed ledger satisfies the sum invariant, and the supply decrease
caused by force-unregistering the owner is classified as a forced
unregistration. -/
theorem ft_ledger_invariant_witness :
    sumv (FT.new "s" 100).accounts = (FT.new "s" 100).totalSupply ∧
    (applyFtOp "c" (.unregister "s" true) ⟨FT.new "s" 100, []⟩ = some ⟨⟨[], 0⟩, []⟩ →
      (0 : Nat) < 100 →
      (FtOp.unregister "s" true).isResolve = true ∨
        (FtOp.unregister "s" true).isForcedUnregister = true) :=
  ft_ledger_invariant "c" ⟨FT.new "s" 100, []⟩ ⟨⟨[], 0⟩, []⟩ (.unregister "s" true)
    (ReachableFT.init "s" 100)

/-- Counterexample to C1 as stated: `total_supply` can also decrease
outside resolution.  The state with `s = 0`, `r = 100` and supply 100 is
reachable (new, register `r`, transfer 100 to `r`); force-unregistering
`r` — a storage operation, not a resolution — discards the balance and
drops `total_supply` from 100 to 0. -/
theorem ft_supply_decrease_outside_resolution :
    ReachableFT "c" ⟨⟨[("s", 0), ("r", 100)], 100⟩, []⟩ ∧
    applyFtOp "c" (.unregister "r" true) ⟨⟨[("s", 0), ("r", 100)], 100⟩, []⟩
      = some ⟨⟨[("s", 0)], 0⟩, []⟩ ∧
    (0 : Nat) < 100 ∧
    (FtOp.unregister "r" true).isResolve = false := by
  refine ⟨?_, by decide, by decide, by decide⟩
  have h0 : ReachableFT "c" ⟨FT.new "s" 100, []⟩ := ReachableFT.init "s" 100
  have h1 : ReachableFT "c" ⟨⟨[("s", 100), ("r", 0)], 100⟩, []⟩ :=
    ReachableFT.step (FtOp.register "r") h0 (by decide)
  exact ReachableFT.step (FtOp.transfer "s" "r" 100) h1 (by decide)

theorem alookup_aset {α β : Type} [DecidableEq α] (l : List (α × β)) (a b : α) (v : β) :
    alookup (aset l a v) b = if b = a then some v else alookup l b := by
  by_cases hba : b = a
  · subst hba
    simp [alookup_aset_self]
  · simp [alookup_aset_ne l a b v hba, hba]

theorem getIdxL_aset (l : List (AccountId × List TokenId)) (a b : AccountId)
    (v : List TokenId) :
    getIdxL (aset l a v) b = if b = a then v else getIdxL l b := by
  by_cases hba : b = a
  · subst hba
    simp [getIdxL, alookup_aset_self]
  · simp [getIdxL, alookup_aset_ne l a b v hba, hba]

theorem NftInv_reassign {st : NFTS} {tid : TokenId} {tok : Token} {n : AccountId}
    (htok : alookup st.tokens tid = some tok) (hinv : NftInv st) :
    NftInv (st.reassign tid tok n) := by
  intro a tid'
  unfold NFTS.reassign
  dsimp only
  rw [alookup_aset, getIdxL_aset, getIdxL_aset, getIdxL_aset]
  by_cases htid : tid' = tid
  · subst htid
    rw [if_pos rfl]
    by_cases han : a = n
    · rw [if_pos han]
      simp [han, List.mem_cons]
    · rw [if_neg han]
      by_cases hao : a = tok.owner
      · rw [if_pos hao]
        simp [List.mem_filter, Ne.symm han]
      · rw [if_neg hao]
        simp [hinv a tid', htok, Ne.symm hao, Ne.symm han]
  · rw [if_neg htid]
    by_cases han : a = n
    · rw [if_pos han]
      by_cases hno : n = tok.owner
      · rw [if_pos hno]
        simp [List.mem_cons, htid, List.mem_filter, hinv tok.owner tid', han, hno]
      · rw [if_neg hno]
        simp [List.mem_cons, htid, hinv n tid', han]
    · rw [if_neg han]
      by_cases hao : a = tok.owner
      · rw [if_pos hao]
        simp [List.mem_filter, htid, hinv tok.owner tid', hao]
      · rw [if_neg hao]
        simp [hinv a tid']

theorem NftInv_mint {st : NFTS} {tid : TokenId} {owner : AccountId}
    (htok : alookup st.tokens tid = none) (hinv : NftInv st) :
    NftInv ⟨st.registered, aset st.tokens tid ⟨owner, [], 1⟩,
      aset st.ownerIdx owner (tid :: getIdxL st.ownerIdx owner), st.pending,
      st.approvalCap⟩ := by
  intro a tid'
  dsimp only
  rw [alookup_aset, getIdxL_aset]
  by_cases htid : tid' = tid
  · subst htid
    rw [if_pos rfl]
    by_cases hao : a = owner
    · rw [if_pos hao]
      simp [hao, List.mem_cons]
    · rw [if_neg hao]
      simp [hinv a tid', htok, Ne.symm hao]
  · rw [if_neg htid]
    by_cases hao : a = owner
    · rw [if_pos hao]
      simp [List.mem_cons, htid, hinv owner tid', hao]
    · rw [if_neg hao]
      exact hinv a tid'

theorem NftInv_tokens_update {st : NFTS} {tid : TokenId} {tok tok2 : Token}
    (htok : alookup st.tokens tid = some tok) (howner : tok2.owner = tok.owner)
    (hinv : NftInv st) :
    NftInv { st with tokens := aset st.tokens tid tok2 } := by
  intro a tid'
  dsimp only
  rw [alookup_aset]
  by_cases htid : tid' = tid
  · subst htid
    rw [if_pos rfl]
    simp [hinv a tid', htok, howner]
  · rw [if_neg htid]
    exact hinv a tid'

theorem applyNftOp_preserves {cid : AccountId} {op : NftOp} {st st' : NFTS}
    (h : applyNftOp cid op st = some st') (hinv : NftInv st) : NftInv st' := by
  cases op with
  | mint tid owner =>
    simp only [applyNftOp, NFTS.mint] at h
    cases hl : alookup st.tokens tid with
    | some v =>
      rw [hl] at h
      simp [Except.toOption] at h
    | none =>
      rw [hl] at h
      simp only [Option.isSome_none, Bool.false_eq_true, if_false, Except.toOption,
        Option.some.injEq] at h
      subst h
      exact NftInv_mint hl hinv
  | transfer s tid r aid =>
    simp only [applyNftOp, NFTS.transfer] at h
    cases hl : alookup st.tokens tid with
    | none => rw [hl] at h; exact Option.noConfusion h
    | some tok =>
      rw [hl] at h
      dsimp only at h
      split_ifs at h with h1 h2 <;>
        first
          | exact Option.noConfusion h
          | (simp only [Except.toOption, Option.some.injEq] at h
             subst h
             exact NftInv_reassign hl hinv)
  | transferCall s tid r aid =>
    simp only [applyNftOp, NFTS.transferCall] at h
    cases hl : alookup st.tokens tid with
    | none => rw [hl] at h; exact Option.noConfusion h
    | some tok =>
      rw [hl] at h
      dsimp only at h
      split_ifs at h with h1 h2 <;>
        first
          | exact Option.noConfusion h
          | (simp only [Except.toOption, Option.some.injEq] at h
             subst h
             exact NftInv_reassign hl hinv)
  | resolve caller p out =>
    simp only [applyNftOp] at h
    cases hr : st.resolveTransfer cid caller p out with
    | error e => rw [hr] at h; exact Option.noConfusion h
    | ok r =>
      rw [hr] at h
      simp only [Except.map, Except.toOption, Option.some.injEq] at h
      subst h
      simp only [NFTS.resolveTransfer] at hr
      by_cases hc : caller ≠ cid
      · rw [if_pos hc] at hr
        exact Except.noConfusion hr
      · rw [if_neg hc] at hr
        by_cases hp : p ∈ st.pending
        · rw [if_pos hp] at hr
          by_cases hacc : out = .accepted
          · rw [if_pos hacc] at hr
            simp only [Except.ok.injEq] at hr
            subst hr
            exact hinv
          · rw [if_neg hacc] at hr
            dsimp only at hr
            cases hl : alookup st.tokens p.tokenId with
            | none =>
              rw [hl] at hr
              dsimp only at hr
              simp only [Except.ok.injEq] at hr
              subst hr
              exact hinv
            | some tok =>
              rw [hl] at hr
              dsimp only at hr
              split_ifs at hr with hreg <;>
                (simp only [Except.ok.injEq] at hr
                 subst hr
                 first
                   | exact NftInv_reassign hl hinv
                   | exact hinv)
        · rw [if_neg hp] at hr
          exact Except.noConfusion hr
  | approve caller tid account =>
    simp only [applyNftOp, NFTS.approve] at h
    cases hl : alookup st.tokens tid with
    | none => rw [hl] at h; exact Option.noConfusion h
    | some tok =>
      rw [hl] at h
      dsimp only at h
      split_ifs at h with h1 h2 <;>
        first
          | exact Option.noConfusion h
          | (simp only [Except.map, Except.toOption, Option.some.injEq] at h
             subst h
             exact NftInv_tokens_update hl rfl hinv)
  | revoke caller tid account =>
    simp only [applyNftOp, NFTS.revoke] at h
    cases hl : alookup st.tokens tid with
    | none => rw [hl] at h; exact Option.noConfusion h
    | some tok =>
      rw [hl] at h
      dsimp only at h
      split_ifs at h with h1 <;>
        first
          | exact Option.noConfusion h
          | (simp only [Except.toOption, Option.some.injEq] at h
             subst h
             exact NftInv_tokens_update hl rfl hinv)
  | revokeAll caller tid =>
    simp only [applyNftOp, NFTS.revokeAll] at h
    cases hl : alookup st.tokens tid with
    | none => rw [hl] at h; exact Option.noConfusion h
    | some tok =>
      rw [hl] at h
      dsimp only at h
      split_ifs at h with h1 <;>
        first
          | exact Option.noConfusion h
          | (simp only [Except.toOption, Option.some.injEq] at h
             subst h
             exact NftInv_tokens_update hl rfl hinv)
  | register a =>
    simp only [applyNftOp, NFTS.register] at h
    split_ifs at h with h1 <;>
      first
        | exact Option.noConfusion h
        | (simp only [Except.toOption, Option.some.injEq] at h
           subst h
           exact hinv)
  | unregister a force =>
    simp only [applyNftOp, NFTS.unregister] at h
    split_ifs at h with h1 h2 <;>
      first
        | exact Option.noConfusion h
        | (simp only [Except.toOption, Option.some.injEq] at h
           subst h
           exact hinv)

theorem reachable_nft_inv {cid : AccountId} {st : NFTS} (h : ReachableNFT cid st) :
    NftInv st := by
  induction h with
  | init owner cap =>
    intro a tid
    simp [NFTS.new, getIdxL, alookup]
  | step op hreach happ ih => exact applyNftOp_preserves happ ih

/-- C7: in every reachable state of the non-fungible registry, a token id
belongs to an account's indexed token set exactly when the token registry
records that account as the token's owner — hence every registered token
has exactly one owner, and every operation (mint, transfer, transfer_call,
resolution, approvals, registration) preserves this. -/
theorem nft_ownership_invariant (cid : AccountId) (st : NFTS) (a b : AccountId)
    (tid : TokenId) (h : ReachableNFT cid st) :
    (tid ∈ getIdxL st.ownerIdx a ↔ (alookup st.tokens tid).map Token.owner = some a) ∧
    (tid ∈ getIdxL st.ownerIdx a → tid ∈ getIdxL st.ownerIdx b → a = b) := by
  have hinv := reachable_nft_inv h
  refine ⟨hinv a tid, fun ha hb => ?_⟩
  have h1 := (hinv a tid).mp ha
  have h2 := (hinv b tid).mp hb
  rw [h1] at h2
  exact Option.some.inj h2

/-- Witness for C7 at a concrete input: after minting token `"0"` to `a`
in a fresh registry, the index of `a` holds `"0"` exactly as the registry
records `a` as owner, and `"0"` can be indexed under only one account. -/
theorem nft_ownership_invariant_witness :
    ("0" ∈ getIdxL [("a", ["0"])] "a" ↔
      (alookup [("0", (⟨"a", [], 1⟩ : Token))] "0").map Token.owner = some "a") ∧
    ("0" ∈ getIdxL [("a", ["0"])] "a" → "0" ∈ getIdxL [("a", ["0"])] "x" → "a" = "x") :=
  nft_ownership_invariant "c" ⟨["a"], [("0", ⟨"a", [], 1⟩)], [("a", ["0"])], [], 2⟩
    "a" "x" "0"
    (ReachableNFT.step (NftOp.mint "0" "a") (ReachableNFT.init "a" 2) (by decide))
